import Mathlib

/-!
# Crypto1: the password store of `src/test.js`

A shallow embedding of the demo keychain in `src/test.js`.

* A JavaScript string is the list of its UTF-16 code units (`JSString`).
* An `ArrayBuffer` / `Uint8Array` is the list of its bytes.
* A promise that rejects (or a call that throws) is `Except.error`.
* The host platform (`crypto.subtle`) is a parameter, `Crypto`; the text and
  base64 codecs of the platform (`TextEncoder`, `TextDecoder`, `btoa`, `atob`)
  are embedded from the WHATWG Encoding and Infra standards.
* The value of `crypto.getRandomValues` is an argument of the function that
  draws it.
* The module `./keychain` that `src/test-keychain-new.js` exercises is not
  among the sources; its operations are written from the specification.
-/

namespace Crypto1

/-! # Part I: the embedding -/

/-! ## Data model -/

/-- A JavaScript string: the sequence of its UTF-16 code units. -/
abbrev JSString := List Nat

/-- The contents of an `ArrayBuffer` or `Uint8Array`. -/
abbrev Bytes := List Nat

/-- Every element is an octet. -/
def IsBytes (b : List Nat) : Prop := ∀ x ∈ b, x < 256

instance (b : List Nat) : Decidable (IsBytes b) := by
  unfold IsBytes; infer_instance

/-- Every element is a UTF-16 code unit. -/
def IsString (s : List Nat) : Prop := ∀ u ∈ s, u < 65536

instance (s : List Nat) : Decidable (IsString s) := by
  unfold IsString; infer_instance

/-- The UTF-16 code units of one code point. -/
def utf16Units (cp : Nat) : List Nat :=
  if cp < 0x10000 then [cp]
  else [0xD800 + (cp - 0x10000) / 1024, 0xDC00 + (cp - 0x10000) % 1024]

/-- A string literal of the source as a `JSString`. -/
def str (s : String) : JSString := s.toList.flatMap (fun ch => utf16Units ch.toNat)

/-- The exceptions the embedded calls can raise. -/
inductive JSError where
  | InvalidCharacterError
  | OperationError
  | DataError
  deriving DecidableEq, Repr

instance instDecidableEqExcept {ε α : Type} [DecidableEq ε] [DecidableEq α] :
    DecidableEq (Except ε α)
  | .ok a, .ok b => if h : a = b then isTrue (by rw [h]) else isFalse (by intro h2; cases h2; exact h rfl)
  | .error a, .error b =>
      if h : a = b then isTrue (by rw [h]) else isFalse (by intro h2; cases h2; exact h rfl)
  | .ok _, .error _ => isFalse (by intro h; cases h)
  | .error _, .ok _ => isFalse (by intro h; cases h)

/-! ## `btoa` and `atob` (WHATWG forgiving-base64) -/

/-- The character of the base64 alphabet with index `i` (RFC 4648, table 1). -/
def b64Char (i : Nat) : Nat :=
  if i < 26 then 65 + i
  else if i < 52 then 97 + (i - 26)
  else if i < 62 then 48 + (i - 52)
  else if i = 62 then 43
  else 47

/-- The index of a character in the base64 alphabet, if it is in it. -/
def b64Index (c : Nat) : Option Nat :=
  if 65 ≤ c ∧ c ≤ 90 then some (c - 65)
  else if 97 ≤ c ∧ c ≤ 122 then some (c - 97 + 26)
  else if 48 ≤ c ∧ c ≤ 57 then some (c - 48 + 52)
  else if c = 43 then some 62
  else if c = 47 then some 63
  else none

/-- Base64 encoding with padding: three octets give four characters. -/
def b64Encode : List Nat → List Nat
  | a :: b :: c :: rest =>
      b64Char (a / 4) :: b64Char ((a % 4) * 16 + b / 16) ::
        b64Char ((b % 16) * 4 + c / 64) :: b64Char (c % 64) :: b64Encode rest
  | [a, b] => [b64Char (a / 4), b64Char ((a % 4) * 16 + b / 16), b64Char ((b % 16) * 4), 61]
  | [a] => [b64Char (a / 4), b64Char ((a % 4) * 16), 61, 61]
  | [] => []

/-- The function `btoa`: throws when a code unit is above U+00FF. -/
def btoa (data : JSString) : Except JSError JSString :=
  if data.any (fun u => decide (255 < u)) then .error .InvalidCharacterError
  else .ok (b64Encode data)

/-- ASCII whitespace: TAB, LF, FF, CR, SPACE. -/
def isAsciiWhitespace (c : Nat) : Bool :=
  c == 9 || c == 10 || c == 12 || c == 13 || c == 32

/-- Step 2 of forgiving-base64 decode: when the length is a multiple of four,
one or two trailing `=` are removed. -/
def stripPadding (data : List Nat) : List Nat :=
  if data.length % 4 = 0 then
    if data.getLast? = some 61 then
      if data.dropLast.getLast? = some 61 then data.dropLast.dropLast else data.dropLast
    else data
  else data

/-- Steps 5 to 7 of forgiving-base64 decode, on the alphabet indices: each
group of four sextets is three octets; a final group of two sextets is one
octet (four bits discarded), and of three sextets two octets (two bits
discarded). -/
def b64DecodeSextets : List Nat → List Nat
  | a :: b :: c :: d :: rest =>
      (a * 4 + b / 16) :: ((b % 16) * 16 + c / 4) :: ((c % 4) * 64 + d) ::
        b64DecodeSextets rest
  | [a, b, c] => [a * 4 + b / 16, (b % 16) * 16 + c / 4]
  | [a, b] => [a * 4 + b / 16]
  | _ => []

/-- The alphabet indices of a string, or `none` when a character is outside the alphabet. -/
def b64Indices : List Nat → Option (List Nat)
  | [] => some []
  | c :: rest =>
      match b64Index c, b64Indices rest with
      | some i, some is => some (i :: is)
      | _, _ => none

/-- The function `atob`: forgiving-base64 decode; a failure is an
`InvalidCharacterError`. -/
def atob (data : JSString) : Except JSError JSString :=
  let data := stripPadding (data.filter (fun c => !isAsciiWhitespace c))
  if data.length % 4 = 1 then .error .InvalidCharacterError
  else
    match b64Indices data with
    | none => .error .InvalidCharacterError
    | some is => .ok (b64DecodeSextets is)

/-- The function `String.fromCharCode`: each argument is taken modulo 2^16. -/
def fromCharCode (codes : List Nat) : JSString := codes.map (· % 65536)

/-- The first code unit of each element the string iterator yields: a
surrogate pair is one element. -/
def iterFirstUnits : JSString → List Nat
  | [] => []
  | [u] => [u]
  | u :: v :: rest =>
      if 0xD800 ≤ u ∧ u < 0xDC00 ∧ 0xDC00 ≤ v ∧ v < 0xE000 then u :: iterFirstUnits rest
      else u :: iterFirstUnits (v :: rest)

/-- Mirrors `encodeBuffer` (src/test.js:10-12). -/
def encodeBuffer (buffer : Bytes) : Except JSError JSString :=
  btoa (fromCharCode buffer)

/-- Mirrors `decodeBuffer` (src/test.js:14-16): `Uint8Array.from` over the
iterated string with `c => c.charCodeAt(0)`, each value stored modulo 256. -/
def decodeBuffer (encoded : JSString) : Except JSError Bytes :=
  match atob encoded with
  | .error e => .error e
  | .ok s => .ok ((iterFirstUnits s).map (· % 256))

/-! ## `TextEncoder` and `TextDecoder` (WHATWG Encoding, UTF-8) -/

/-- A high (leading) surrogate code unit. -/
def isHighSurrogate (u : Nat) : Bool := decide (0xD800 ≤ u) && decide (u < 0xDC00)

/-- A low (trailing) surrogate code unit. -/
def isLowSurrogate (u : Nat) : Bool := decide (0xDC00 ≤ u) && decide (u < 0xE000)

/-- Conversion of a JavaScript string to scalar values (`USVString`): a
surrogate pair is one code point, a surrogate that is not part of a pair
becomes U+FFFD. -/
def toScalars : JSString → List Nat
  | [] => []
  | [u] => if isHighSurrogate u || isLowSurrogate u then [0xFFFD] else [u]
  | u :: v :: rest =>
      if isHighSurrogate u && isLowSurrogate v then
        (0x10000 + (u - 0xD800) * 1024 + (v - 0xDC00)) :: toScalars rest
      else if isHighSurrogate u || isLowSurrogate u then 0xFFFD :: toScalars (v :: rest)
      else u :: toScalars (v :: rest)

/-- The UTF-8 encoder on one scalar value. -/
def utf8EncodeScalar (cp : Nat) : List Nat :=
  if cp < 0x80 then [cp]
  else if cp < 0x800 then [0xC0 + cp / 64, 0x80 + cp % 64]
  else if cp < 0x10000 then [0xE0 + cp / 4096, 0x80 + (cp / 64) % 64, 0x80 + cp % 64]
  else [0xF0 + cp / 262144, 0x80 + (cp / 4096) % 64, 0x80 + (cp / 64) % 64, 0x80 + cp % 64]

/-- Mirrors `stringToBuffer` (src/test.js:2-4): `new TextEncoder().encode(str)`. -/
def stringToBuffer (s : JSString) : Bytes := (toScalars s).flatMap utf8EncodeScalar

/-- The state of the UTF-8 decoder. -/
structure Utf8State where
  codePoint : Nat
  bytesSeen : Nat
  bytesNeeded : Nat
  lowerBoundary : Nat
  upperBoundary : Nat
  deriving DecidableEq, Repr

/-- The initial state of the UTF-8 decoder. -/
def Utf8State.init : Utf8State := ⟨0, 0, 0, 0x80, 0xBF⟩

/-- The decoder's handler on a byte when no byte is pending (step 3): the
new state and the code points emitted (U+FFFD for an error). -/
def utf8Lead (b : Nat) : Utf8State × List Nat :=
  if b ≤ 0x7F then (Utf8State.init, [b])
  else if 0xC2 ≤ b ∧ b ≤ 0xDF then (⟨b % 32, 0, 1, 0x80, 0xBF⟩, [])
  else if 0xE0 ≤ b ∧ b ≤ 0xEF then
    (⟨b % 16, 0, 2, if b = 0xE0 then 0xA0 else 0x80, if b = 0xED then 0x9F else 0xBF⟩, [])
  else if 0xF0 ≤ b ∧ b ≤ 0xF4 then
    (⟨b % 8, 0, 3, if b = 0xF0 then 0x90 else 0x80, if b = 0xF4 then 0x8F else 0xBF⟩, [])
  else (Utf8State.init, [0xFFFD])

/-- The decoder's handler on one byte, in the replacement error mode: a byte
outside the boundaries ends the pending sequence with U+FFFD and is handled
again from the initial state. -/
def utf8Step (st : Utf8State) (b : Nat) : Utf8State × List Nat :=
  if st.bytesNeeded = 0 then utf8Lead b
  else if b < st.lowerBoundary ∨ st.upperBoundary < b then
    ((utf8Lead b).1, 0xFFFD :: (utf8Lead b).2)
  else if st.bytesSeen + 1 = st.bytesNeeded then
    (Utf8State.init, [st.codePoint * 64 + b % 64])
  else (⟨st.codePoint * 64 + b % 64, st.bytesSeen + 1, st.bytesNeeded, 0x80, 0xBF⟩, [])

/-- The UTF-8 decoder run over the input; at the end of the input a pending
sequence gives U+FFFD. -/
def utf8DecodeFrom (st : Utf8State) : Bytes → List Nat
  | [] => if st.bytesNeeded = 0 then [] else [0xFFFD]
  | b :: rest => (utf8Step st b).2 ++ utf8DecodeFrom (utf8Step st b).1 rest

/-- A `TextDecoder` made without options drops a byte order mark: the first
code point of the output when it is U+FEFF. -/
def stripBOM : List Nat → List Nat
  | 0xFEFF :: rest => rest
  | cps => cps

/-- Mirrors `bufferToString` (src/test.js:6-8): `new TextDecoder().decode(buffer)`. -/
def bufferToString (buffer : Bytes) : JSString :=
  (stripBOM (utf8DecodeFrom Utf8State.init buffer)).flatMap utf16Units

/-- A string whose surrogates are all paired and whose elements are code units. -/
def wellFormed : JSString → Bool
  | [] => true
  | [u] => decide (u < 65536) && !(isHighSurrogate u || isLowSurrogate u)
  | u :: v :: rest =>
      if isHighSurrogate u then isLowSurrogate v && wellFormed rest
      else decide (u < 65536) && !isLowSurrogate u && wellFormed (v :: rest)

/-! ## The platform's `crypto.subtle` -/

/-- The primitives of `crypto.subtle` that the script calls, on raw bytes. -/
structure Crypto where
  /-- PBKDF2 with SHA-256: password, salt, iterations, length in bits. -/
  deriveBits : Bytes → Bytes → Nat → Nat → Bytes
  /-- HMAC with SHA-256: key, message. -/
  sign : Bytes → Bytes → Bytes
  /-- AES-GCM encryption without additional data: key, iv, plaintext. -/
  encrypt : Bytes → Bytes → Bytes → Bytes
  /-- AES-GCM decryption: key, iv, ciphertext; `none` when authentication fails. -/
  decrypt : Bytes → Bytes → Bytes → Option Bytes

/-- The value `crypto.getRandomValues(new Uint8Array(12))` can give: twelve octets. -/
def IsIv (iv : Bytes) : Prop := iv.length = 12 ∧ IsBytes iv

instance (iv : Bytes) : Decidable (IsIv iv) := by
  unfold IsIv; infer_instance

/-- What the script relies on from the primitives: results are buffers of
octets, PBKDF2 asked for 256 bits and HMAC-SHA-256 give 32 of them, and
AES-GCM decryption under the same 256-bit key and 96-bit iv inverts
encryption. -/
structure Crypto.Sound (c : Crypto) : Prop where
  deriveBits_length : ∀ pw salt iter, (c.deriveBits pw salt iter 256).length = 32
  sign_length : ∀ key msg, (c.sign key msg).length = 32
  sign_bytes : ∀ key msg, IsBytes (c.sign key msg)
  encrypt_bytes : ∀ key iv pt, IsBytes (c.encrypt key iv pt)
  decrypt_encrypt : ∀ key iv pt, key.length = 32 → IsIv iv → IsBytes pt →
    c.decrypt key iv (c.encrypt key iv pt) = some pt

/-- A `CryptoKey` for AES-GCM, extractable: its raw key bytes. -/
structure CryptoKey where
  raw : Bytes
  deriving DecidableEq, Repr

/-- The result of `deriveKey`. -/
structure DerivedKeys where
  aesKey : CryptoKey
  hmacKey : Bytes
  deriving DecidableEq, Repr

/-- The call `importKey("raw", data, AES-GCM, ...)`: a `DataError` unless the
data is 128, 192 or 256 bits long. -/
def importAesKey (data : Bytes) : Except JSError CryptoKey :=
  if data.length = 16 ∨ data.length = 24 ∨ data.length = 32 then .ok ⟨data⟩
  else .error .DataError

/-- Mirrors `deriveKey` (src/test.js:18-48). -/
def deriveKey (c : Crypto) (masterPassword salt : JSString) : Except JSError DerivedKeys :=
  let keyMaterial := stringToBuffer masterPassword
  let derivedBits := c.deriveBits keyMaterial (stringToBuffer salt) 100000 256
  match importAesKey derivedBits with
  | .error e => .error e
  | .ok aesKey => .ok { aesKey := aesKey, hmacKey := derivedBits }

/-- A value of the store: the record `encryptData` returns. -/
structure Entry where
  iv : JSString
  encryptedData : JSString
  deriving DecidableEq, Repr

/-- Mirrors `encryptData` (src/test.js:50-58); `iv` is the value that
`crypto.getRandomValues(new Uint8Array(12))` gave. -/
def encryptData (c : Crypto) (key : CryptoKey) (data : JSString) (iv : Bytes) :
    Except JSError Entry :=
  let encrypted := c.encrypt key.raw iv (stringToBuffer data)
  match encodeBuffer iv with
  | .error e => .error e
  | .ok iv64 =>
    match encodeBuffer encrypted with
    | .error e => .error e
    | .ok ct64 => .ok { iv := iv64, encryptedData := ct64 }

/-- Mirrors `decryptData` (src/test.js:60-67); a failed decryption rejects
with an `OperationError`. -/
def decryptData (c : Crypto) (key : CryptoKey) (encryptedData iv : JSString) :
    Except JSError JSString :=
  match decodeBuffer iv with
  | .error e => .error e
  | .ok ivBytes =>
    match decodeBuffer encryptedData with
    | .error e => .error e
    | .ok ct =>
      match c.decrypt key.raw ivBytes ct with
      | none => .error .OperationError
      | some decrypted => .ok (bufferToString decrypted)

/-- The call `importKey("raw", hmacKey, HMAC, ...)`: a `DataError` on an empty key. -/
def importHmacKey (data : Bytes) : Except JSError Bytes :=
  if data.length = 0 then .error .DataError else .ok data

/-- Mirrors `hashDomain` (src/test.js:69-85). -/
def hashDomain (c : Crypto) (domain : JSString) (hmacKey : Bytes) : Except JSError JSString :=
  match importHmacKey hmacKey with
  | .error e => .error e
  | .ok hmacKeyImported => encodeBuffer (c.sign hmacKeyImported (stringToBuffer domain))

/-! ## The store: the plain object `passwordStore` -/

/-- The names of the properties a plain object inherits from
`Object.prototype`; `__proto__` is handled apart. -/
def objectPrototypeNames : List JSString :=
  [str "constructor", str "__defineGetter__", str "__defineSetter__", str "hasOwnProperty",
   str "__lookupGetter__", str "__lookupSetter__", str "isPrototypeOf",
   str "propertyIsEnumerable", str "toString", str "valueOf", str "toLocaleString"]

/-- The object `passwordStore`: its own properties in insertion order, and
its prototype, which is `Object.prototype` (`none`) unless an assignment to
`__proto__` replaced it by a record. -/
structure Store where
  own : List (JSString × Entry)
  proto : Option Entry
  deriving DecidableEq, Repr

/-- The initial value `{}` (src/test.js:1). -/
def Store.empty : Store := ⟨[], none⟩

/-- What a property read gives: `undefined`, a record, or (through the
prototype chain) a value that is not a record, with its truthiness. -/
inductive Slot where
  | undefined
  | record (e : Entry)
  | other (truthy : Bool)
  deriving DecidableEq, Repr

/-- The own property with key `k`. -/
def ownLookup {β : Type} : List (JSString × β) → JSString → Option β
  | [], _ => none
  | (k', v) :: rest, k => if k' = k then some v else ownLookup rest k

/-- Writes the own property `k`: replaced in place when present, appended otherwise. -/
def upsert {β : Type} : List (JSString × β) → JSString → β → List (JSString × β)
  | [], k, v => [(k, v)]
  | (k', v') :: rest, k, v =>
      if k' = k then (k, v) :: rest else (k', v') :: upsert rest k v

/-- The read `passwordStore[k]`: own properties first, then the prototype chain. -/
def getProp (o : Store) (k : JSString) : Slot :=
  match ownLookup o.own k with
  | some e => .record e
  | none =>
    if k = str "__proto__" then
      match o.proto with
      | some e => .record e
      | none => .other true
    else
      match o.proto with
      | some e =>
          if k = str "iv" then .other (decide (e.iv ≠ []))
          else if k = str "encryptedData" then .other (decide (e.encryptedData ≠ []))
          else if k ∈ objectPrototypeNames then .other true
          else .undefined
      | none => if k ∈ objectPrototypeNames then .other true else .undefined

/-- The assignment `passwordStore[k] = v`: an own property is written,
except that the inherited setter of `__proto__` replaces the prototype. -/
def setProp (o : Store) (k : JSString) (v : Entry) : Store :=
  match ownLookup o.own k with
  | some _ => { o with own := upsert o.own k v }
  | none =>
    if k = str "__proto__" then { o with proto := some v }
    else { o with own := upsert o.own k v }

/-- Mirrors `storePassword` (src/test.js:87-92). -/
def storePassword (c : Crypto) (domain password masterPassword salt : JSString) (iv : Bytes)
    (passwordStore : Store) : Except JSError Store :=
  match deriveKey c masterPassword salt with
  | .error e => .error e
  | .ok keys =>
    match encryptData c keys.aesKey password iv with
    | .error e => .error e
    | .ok encrypted =>
      match hashDomain c domain keys.hmacKey with
      | .error e => .error e
      | .ok hashedDomain => .ok (setProp passwordStore hashedDomain encrypted)

/-- Mirrors `retrievePassword` (src/test.js:94-102); `none` is `null`. A
truthy value that is not a record has no `encryptedData` and no `iv`, so
`decryptData` receives `undefined` twice, which `atob` reads as the text
"undefined". -/
def retrievePassword (c : Crypto) (domain masterPassword salt : JSString)
    (passwordStore : Store) : Except JSError (Option JSString) :=
  match deriveKey c masterPassword salt with
  | .error e => .error e
  | .ok keys =>
    match hashDomain c domain keys.hmacKey with
    | .error e => .error e
    | .ok hashedDomain =>
      match getProp passwordStore hashedDomain with
      | .undefined => .ok none
      | .other false => .ok none
      | .other true =>
          (decryptData c keys.aesKey (str "undefined") (str "undefined")).map some
      | .record encrypted =>
          (decryptData c keys.aesKey encrypted.encryptedData encrypted.iv).map some

/-- The first `n` octets of `l`, padded with zeros. -/
def padTo (n : Nat) (l : Bytes) : Bytes := (l.map (· % 256) ++ List.replicate n 0).take n

/-- The sixteen-octet tag of the stand-in cipher. -/
def demoTag (key iv : Bytes) : Bytes :=
  List.zipWith (fun a b => (a + b) % 256) (padTo 16 key) (padTo 16 iv)

/-- A stand-in for `crypto.subtle`. -/
def demoCrypto : Crypto where
  deriveBits := fun pw salt _ bits => padTo (bits / 8) (pw ++ salt)
  sign := fun key msg => List.zipWith (fun a b => (a + b) % 256) (padTo 32 key) (padTo 32 msg)
  encrypt := fun key iv pt => pt.map (fun b => (b + 1) % 256) ++ demoTag key iv
  decrypt := fun key iv ct =>
    if 16 ≤ ct.length ∧ ct.drop (ct.length - 16) = demoTag key iv then
      some ((ct.take (ct.length - 16)).map (fun b => (b + 255) % 256))
    else none

/-! ## Base64: the parts of an encoding -/

/-- The encoding without its padding. -/
def b64Body : List Nat → List Nat
  | a :: b :: c :: rest =>
      b64Char (a / 4) :: b64Char ((a % 4) * 16 + b / 16) ::
        b64Char ((b % 16) * 4 + c / 64) :: b64Char (c % 64) :: b64Body rest
  | [a, b] => [b64Char (a / 4), b64Char ((a % 4) * 16 + b / 16), b64Char ((b % 16) * 4)]
  | [a] => [b64Char (a / 4), b64Char ((a % 4) * 16)]
  | [] => []

/-- The padding of the encoding. -/
def b64Pad : List Nat → List Nat
  | _ :: _ :: _ :: rest => b64Pad rest
  | [_, _] => [61]
  | [_] => [61, 61]
  | [] => []

/-! ## UTF-8: scalar values -/

/-- A Unicode scalar value. -/
def IsScalar (cp : Nat) : Prop := cp < 0x110000 ∧ ¬ (0xD800 ≤ cp ∧ cp < 0xE000)

/-! ## The store: tags and records -/

/-- The key under which `storePassword` and `retrievePassword` file a domain
(src/test.js:88-90 and 95-96): `hashDomain` under the key of `deriveKey`. -/
def domainTag (c : Crypto) (domain masterPassword salt : JSString) : Except JSError JSString :=
  match deriveKey c masterPassword salt with
  | .error e => .error e
  | .ok keys => hashDomain c domain keys.hmacKey

/-- The bits PBKDF2 gives for a passphrase and a salt. -/
def derivedBits (c : Crypto) (masterPassword salt : JSString) : Bytes :=
  c.deriveBits (stringToBuffer masterPassword) (stringToBuffer salt) 100000 256

/-- The text `hashDomain` gives for a domain under the derived bits. -/
def tagText (c : Crypto) (d P s : JSString) : JSString :=
  b64Encode (c.sign (derivedBits c P s) (stringToBuffer d))

/-- The record `encryptData` gives for a password under the derived bits. -/
def entryOf (c : Crypto) (p P s : JSString) (iv : Bytes) : Entry :=
  ⟨b64Encode iv, b64Encode (c.encrypt (derivedBits c P s) iv (stringToBuffer p))⟩

/-! ## The scenario of the script (src/test.js:105-108) -/

/-- The constant `masterPassword` (src/test.js:105). -/
def masterPassword0 : JSString := str "myMasterPassword"

/-- The constant `salt` (src/test.js:106). -/
def salt0 : JSString := str "someRandomSalt"

/-- The domain of the script's call (src/test.js:108). -/
def domain0 : JSString := str "example.com"

/-- The password of the script's call (src/test.js:108). -/
def password0 : JSString := str "myPassword123"

/-- A value for the random iv. -/
def iv0 : Bytes := [1, 2, 3, 4, 5, 6, 7, 8, 9, 10, 11, 12]

/-- Another value for the random iv. -/
def iv1 : Bytes := [21, 22, 23, 24, 25, 26, 27, 28, 29, 30, 31, 32]

/-- The store after the script's call, on the stand-in primitives. -/
def storeAfterScript : Store :=
  match storePassword demoCrypto domain0 password0 masterPassword0 salt0 iv0 Store.empty with
  | .ok st => st
  | .error _ => Store.empty

/-! ## Sequences of `storePassword` calls -/

/-- One call `storePassword(domain, password, masterPassword, salt)`, with
the iv the random source gave it. -/
structure Call where
  domain : JSString
  password : JSString
  masterPassword : JSString
  salt : JSString
  iv : Bytes
  deriving DecidableEq, Repr

/-- The tag of a call. -/
def Call.tag (c : Crypto) (call : Call) : JSString :=
  tagText c call.domain call.masterPassword call.salt

/-- The record of a call. -/
def Call.entry (c : Crypto) (call : Call) : Entry :=
  entryOf c call.password call.masterPassword call.salt call.iv

/-- Modelled from the spec: the Entry of section 3, the output of the
authenticated encryption of one password. The class `Keychain` is missing. -/
structure KeychainEntry where
  nonce : Bytes
  ciphertext : Bytes
  deriving DecidableEq, Repr

/-- Modelled from the spec: the Dump of sections 3 and 6, the salt and the
mapping `kvs` from DomainTag to Entry. The class `Keychain` is missing. -/
structure KeychainDump where
  salt : Bytes
  kvs : List (JSString × KeychainEntry)
  deriving DecidableEq, Repr

/-- Modelled from the spec: the external collaborators of section 2 that the
missing class `Keychain` invokes: KeyDerivation (passphrase, salt, giving
cipher key and index key), DomainIndexer (index key, domain), EntryCipher
(cipher key, DomainTag as associated data, nonce, text), IntegrityGuard
(checksum of the serialized text), and the textual form of a Dump. -/
structure KeychainPrimitives where
  deriveKeys : JSString → Bytes → Bytes × Bytes
  indexTag : Bytes → JSString → JSString
  encrypt : Bytes → JSString → Bytes → JSString → Bytes
  decrypt : Bytes → JSString → Bytes → Bytes → Option JSString
  checksum : JSString → JSString
  serialize : KeychainDump → JSString
  parse : JSString → Option KeychainDump

/-- Modelled from the spec: what sections 4.3 and 6 give about the
collaborators of the missing class `Keychain`: decryption under the same key,
DomainTag and nonce returns the password, and the textual form of a Dump
parses back to it. -/
structure KeychainPrimitives.Lawful (pr : KeychainPrimitives) : Prop where
  decrypt_encrypt : ∀ key tag nonce pt,
    pr.decrypt key tag nonce (pr.encrypt key tag nonce pt) = some pt
  parse_serialize : ∀ d, pr.parse (pr.serialize d) = some d

/-- Modelled from the spec: a Ready KeychainStore (section 4.5), the
MasterSecret, the Salt and the Store. The class `Keychain` is missing. -/
structure Keychain where
  cipherKey : Bytes
  indexKey : Bytes
  salt : Bytes
  kvs : List (JSString × KeychainEntry)
  deriving DecidableEq, Repr

/-- Modelled from the spec: the failures of section 7, with the failure to
parse a dump. The class `Keychain` is missing. -/
inductive KeychainFailure where
  | IntegrityError
  | AuthenticationFailure
  | ParseFailure
  deriving DecidableEq, Repr

/-- Modelled from the spec: `new(passphrase)` of the missing class
`Keychain` (section 4.5), with the fresh random Salt as an argument: runs
KeyDerivation and starts from the empty Store. -/
def Keychain.create (pr : KeychainPrimitives) (passphrase : JSString) (salt : Bytes) : Keychain :=
  ⟨(pr.deriveKeys passphrase salt).1, (pr.deriveKeys passphrase salt).2, salt, []⟩

/-- Modelled from the spec: `set(domain, password)` of the missing class
`Keychain` (section 4.5), with the fresh nonce as an argument:
`tag = DomainIndexer(domain)`, `entry = EntryCipher.encrypt(cipherKey, tag,
password)`, upsert `kvs[tag] = entry`. -/
def Keychain.set (pr : KeychainPrimitives) (k : Keychain) (domain password : JSString)
    (nonce : Bytes) : Keychain :=
  let tag := pr.indexTag k.indexKey domain
  let entry : KeychainEntry := ⟨nonce, pr.encrypt k.cipherKey tag nonce password⟩
  ⟨k.cipherKey, k.indexKey, k.salt, upsert k.kvs tag entry⟩

/-- Modelled from the spec: `get(domain)` of the missing class `Keychain`
(section 4.5): `null` when `kvs` has no entry for the tag, else the
decrypted password, or AuthenticationFailure. -/
def Keychain.get (pr : KeychainPrimitives) (k : Keychain) (domain : JSString) :
    Except KeychainFailure (Option JSString) :=
  match ownLookup k.kvs (pr.indexTag k.indexKey domain) with
  | none => .ok none
  | some e =>
    match pr.decrypt k.cipherKey (pr.indexTag k.indexKey domain) e.nonce e.ciphertext with
    | none => .error .AuthenticationFailure
    | some password => .ok (some password)

/-- Modelled from the spec: `dump()` of the missing class `Keychain`
(section 4.5): the serialized `{salt, kvs}` and its checksum. -/
def Keychain.dump (pr : KeychainPrimitives) (k : Keychain) : JSString × JSString :=
  (pr.serialize ⟨k.salt, k.kvs⟩, pr.checksum (pr.serialize ⟨k.salt, k.kvs⟩))

/-- Modelled from the spec: `load(passphrase, serializedDump,
expectedChecksum)` of the missing class `Keychain` (section 4.5): the
checksum is verified (IntegrityError), Salt and `kvs` are parsed, the keys
are derived from the passphrase and the parsed Salt, and, as the conservative
design of the section has it, the load fails when an entry does not decrypt
under them. -/
def Keychain.load (pr : KeychainPrimitives) (passphrase serializedDump
    expectedChecksum : JSString) : Except KeychainFailure Keychain :=
  if pr.checksum serializedDump ≠ expectedChecksum then .error .IntegrityError
  else
    match pr.parse serializedDump with
    | none => .error .ParseFailure
    | some d =>
      let keys := pr.deriveKeys passphrase d.salt
      if d.kvs.all (fun kv => (pr.decrypt keys.1 kv.1 kv.2.nonce kv.2.ciphertext).isSome) then
        .ok ⟨keys.1, keys.2, d.salt, d.kvs⟩
      else .error .AuthenticationFailure

/-- Modelled from the spec: a sequence of `set` calls on the missing class
`Keychain`, each a domain, a password and the nonce drawn for it. -/
def Keychain.setAll (pr : KeychainPrimitives) (k : Keychain)
    (sets : List (JSString × JSString × Bytes)) : Keychain :=
  sets.foldl (fun acc x => Keychain.set pr acc x.1 x.2.1 x.2.2) k

/-- The password of the last `set` of the sequence for a domain. -/
def lastSet (sets : List (JSString × JSString × Bytes)) (d : JSString) : Option JSString :=
  ((sets.filter (fun x => decide (x.1 = d))).getLast?).map (fun x => x.2.1)

/-- A list of numbers with its length in front. -/
def encList (l : List Nat) : List Nat := l.length :: l

/-- Reads a list written by `encList` and gives the rest of the input. -/
def takeList : List Nat → Option (List Nat × List Nat)
  | [] => none
  | n :: rest => if n ≤ rest.length then some (rest.take n, rest.drop n) else none

/-- The text of one entry of `kvs` in the stand-in format. -/
def encKv (kv : JSString × KeychainEntry) : List Nat :=
  encList kv.1 ++ (encList kv.2.nonce ++ encList kv.2.ciphertext)

/-- Reads the entries of `kvs` in the stand-in format. -/
def parseKvs : Nat → List Nat → Option (List (JSString × KeychainEntry))
  | _, [] => some []
  | 0, _ :: _ => none
  | fuel + 1, n :: rest =>
    match takeList (n :: rest) with
    | none => none
    | some (tag, r1) =>
      match takeList r1 with
      | none => none
      | some (nonce, r2) =>
        match takeList r2 with
        | none => none
        | some (ct, r3) =>
          match parseKvs fuel r3 with
          | none => none
          | some kvs => some ((tag, ⟨nonce, ct⟩) :: kvs)

/-- A stand-in for the collaborators of the keychain engine. -/
def demoPrimitives : KeychainPrimitives where
  deriveKeys := fun passphrase salt =>
    (padTo 32 (stringToBuffer passphrase ++ salt), padTo 32 (salt ++ stringToBuffer passphrase))
  indexTag := fun key domain => b64Encode (padTo 3 key) ++ domain
  encrypt := fun key tag _ pt => padTo 4 key ++ [tag.length % 256] ++ pt
  decrypt := fun key tag _ ct =>
    if ct.take 5 = padTo 4 key ++ [tag.length % 256] then some (ct.drop 5) else none
  checksum := fun text => [text.length % 65536, text.sum % 65536]
  serialize := fun d => encList d.salt ++ d.kvs.flatMap encKv
  parse := fun text =>
    match takeList text with
    | none => none
    | some (salt, rest) =>
      match parseKvs rest.length rest with
      | none => none
      | some kvs => some ⟨salt, kvs⟩

/-- The entries of the test `can dump and restore the database`
(src/test-keychain-new.js:19-23), each with a nonce. -/
def setsOfTest : List (JSString × JSString × Bytes) :=
  [(str "service1", str "value1", iv0), (str "service2", str "value2", iv1),
   (str "service3", str "value3", iv0)]

/-- The `kvs` after a sequence of `set` calls. -/
def kvsAfter (pr : KeychainPrimitives) (cipherKey indexKey : Bytes)
    (sets : List (JSString × JSString × Bytes)) (kvs : List (JSString × KeychainEntry)) :
    List (JSString × KeychainEntry) :=
  sets.foldl (fun acc x => upsert acc (pr.indexTag indexKey x.1)
    (KeychainEntry.mk x.2.2 (pr.encrypt cipherKey (pr.indexTag indexKey x.1) x.2.2 x.2.1))) kvs

/-! # Part II: lemmas and the claims -/

/-! ## Base64: lemmas -/

theorem b64Encode_eq_body_pad (b : List Nat) : b64Encode b = b64Body b ++ b64Pad b := by
  induction b using b64Encode.induct <;> simp_all [b64Encode, b64Body, b64Pad]

theorem b64Pad_cases (b : List Nat) : b64Pad b = [] ∨ b64Pad b = [61] ∨ b64Pad b = [61, 61] := by
  induction b using b64Pad.induct <;> simp_all [b64Pad]

theorem b64Index_b64Char : ∀ i, i < 64 → b64Index (b64Char i) = some i := by decide

theorem b64Char_ne_pad (i : Nat) : b64Char i ≠ 61 := by
  unfold b64Char; split_ifs <;> omega

theorem b64Char_lt (i : Nat) : b64Char i < 128 := by
  unfold b64Char; split_ifs <;> omega

theorem b64Char_not_whitespace (i : Nat) : isAsciiWhitespace (b64Char i) = false := by
  unfold b64Char isAsciiWhitespace; split_ifs <;> simp <;> omega

theorem b64Body_mem (b : List Nat) : ∀ c ∈ b64Body b, ∃ i, c = b64Char i := by
  induction b using b64Body.induct <;> simp_all [b64Body]

theorem b64Body_getLast_ne_pad (b : List Nat) : (b64Body b).getLast? ≠ some 61 := by
  intro h
  obtain ⟨i, hi⟩ := b64Body_mem b 61 (List.mem_of_getLast?_eq_some h)
  exact b64Char_ne_pad i hi.symm

theorem b64Encode_length_mod (b : List Nat) : (b64Encode b).length % 4 = 0 := by
  induction b using b64Encode.induct <;> simp_all [b64Encode]
  omega

theorem stripPadding_b64Encode (b : List Nat) : stripPadding (b64Encode b) = b64Body b := by
  have hlen := b64Encode_length_mod b
  have hlast := b64Body_getLast_ne_pad b
  unfold stripPadding
  rw [if_pos hlen, b64Encode_eq_body_pad]
  rcases b64Pad_cases b with h | h | h <;> rw [h]
  · simp [hlast]
  · simp [hlast]
  · have : b64Body b ++ [61, 61] = (b64Body b ++ [61]) ++ [61] := by simp
    rw [this]
    simp [hlast]

theorem filter_whitespace_b64Encode (b : List Nat) :
    (b64Encode b).filter (fun c => !isAsciiWhitespace c) = b64Encode b := by
  rw [List.filter_eq_self]
  intro c hc
  rw [b64Encode_eq_body_pad, List.mem_append] at hc
  rcases hc with hc | hc
  · obtain ⟨i, rfl⟩ := b64Body_mem b c hc
    simp [b64Char_not_whitespace]
  · rcases b64Pad_cases b with h | h | h <;> rw [h] at hc <;> simp at hc <;> subst hc <;> decide

theorem b64Body_length_mod (b : List Nat) : (b64Body b).length % 4 ≠ 1 := by
  induction b using b64Body.induct <;> simp_all [b64Body]
  omega

theorem b64Decode_body (b : List Nat) (hb : IsBytes b) :
    ∃ is, b64Indices (b64Body b) = some is ∧ b64DecodeSextets is = b := by
  induction b using b64Body.induct with
  | case1 x y z rest ih =>
    have hx : x < 256 := hb x (by simp)
    have hy : y < 256 := hb y (by simp)
    have hz : z < 256 := hb z (by simp)
    obtain ⟨is, h1, h2⟩ := ih (fun w hw => hb w (by simp [hw]))
    refine ⟨x / 4 :: (x % 4 * 16 + y / 16) :: (y % 16 * 4 + z / 64) :: (z % 64) :: is, ?_, ?_⟩
    · simp only [b64Body, b64Indices, h1]
      rw [b64Index_b64Char _ (by omega), b64Index_b64Char _ (by omega),
        b64Index_b64Char _ (by omega), b64Index_b64Char _ (by omega)]
    · simp only [b64DecodeSextets, h2]
      congr 1
      · omega
      · congr 1
        · omega
        · congr 1
          omega
  | case2 x y =>
    have hx : x < 256 := hb x (by simp)
    have hy : y < 256 := hb y (by simp)
    refine ⟨[x / 4, x % 4 * 16 + y / 16, y % 16 * 4], ?_, ?_⟩
    · simp only [b64Body, b64Indices]
      rw [b64Index_b64Char _ (by omega), b64Index_b64Char _ (by omega),
        b64Index_b64Char _ (by omega)]
    · simp only [b64DecodeSextets]
      congr 1
      · omega
      · congr 1
        omega
  | case3 x =>
    have hx : x < 256 := hb x (by simp)
    refine ⟨[x / 4, x % 4 * 16], ?_, ?_⟩
    · simp only [b64Body, b64Indices]
      rw [b64Index_b64Char _ (by omega), b64Index_b64Char _ (by omega)]
    · simp only [b64DecodeSextets]
      congr 1
      omega
  | case4 => exact ⟨[], rfl, rfl⟩

theorem atob_b64Encode (b : List Nat) (hb : IsBytes b) : atob (b64Encode b) = .ok b := by
  obtain ⟨is, h1, h2⟩ := b64Decode_body b hb
  unfold atob
  simp only [filter_whitespace_b64Encode, stripPadding_b64Encode, if_neg (b64Body_length_mod b),
    h1, h2]

theorem fromCharCode_bytes (b : List Nat) (hb : IsBytes b) : fromCharCode b = b := by
  unfold fromCharCode
  conv_rhs => rw [← List.map_id b]
  apply List.map_congr_left
  intro x hx
  have := hb x hx
  simp only [id]
  omega

theorem iterFirstUnits_bytes (b : List Nat) (hb : IsBytes b) : iterFirstUnits b = b := by
  induction b using iterFirstUnits.induct with
  | case1 => rfl
  | case2 u => rfl
  | case3 u v rest h ih =>
    have := hb u (by simp)
    omega
  | case4 u v rest h ih =>
    simp only [iterFirstUnits, if_neg h]
    rw [ih (fun w hw => hb w (by simp [hw]))]

theorem map_mod_bytes (b : List Nat) (hb : IsBytes b) : b.map (· % 256) = b := by
  conv_rhs => rw [← List.map_id b]
  apply List.map_congr_left
  intro x hx
  have := hb x hx
  simp only [id]
  omega

theorem encodeBuffer_eq (b : List Nat) (hb : IsBytes b) : encodeBuffer b = .ok (b64Encode b) := by
  unfold encodeBuffer btoa
  rw [fromCharCode_bytes b hb, if_neg]
  simp only [List.any_eq_true, decide_eq_true_eq, not_exists, not_and, not_lt]
  intro x hx
  have := hb x hx
  omega

theorem decodeBuffer_b64Encode (b : List Nat) (hb : IsBytes b) :
    decodeBuffer (b64Encode b) = .ok b := by
  unfold decodeBuffer
  rw [atob_b64Encode b hb]
  simp only [iterFirstUnits_bytes b hb, map_mod_bytes b hb]

/-! ## UTF-8: lemmas -/

theorem utf8DecodeFrom_cons (st : Utf8State) (b : Nat) (rest : Bytes) :
    utf8DecodeFrom st (b :: rest)
      = (utf8Step st b).2 ++ utf8DecodeFrom (utf8Step st b).1 rest := rfl

theorem utf8Step_init (b : Nat) : utf8Step Utf8State.init b = utf8Lead b := by
  simp [utf8Step, Utf8State.init]

theorem utf8Lead_one (b : Nat) (h : b ≤ 0x7F) : utf8Lead b = (Utf8State.init, [b]) := by
  unfold utf8Lead
  rw [if_pos h]

theorem utf8Lead_two (b : Nat) (h1 : 0xC2 ≤ b) (h2 : b ≤ 0xDF) :
    utf8Lead b = (⟨b % 32, 0, 1, 0x80, 0xBF⟩, []) := by
  unfold utf8Lead
  rw [if_neg (by omega), if_pos ⟨h1, h2⟩]

theorem utf8Lead_three (b : Nat) (h1 : 0xE0 ≤ b) (h2 : b ≤ 0xEF) :
    utf8Lead b = (⟨b % 16, 0, 2, if b = 0xE0 then 0xA0 else 0x80,
      if b = 0xED then 0x9F else 0xBF⟩, []) := by
  unfold utf8Lead
  rw [if_neg (by omega), if_neg (by omega), if_pos ⟨h1, h2⟩]

theorem utf8Lead_four (b : Nat) (h1 : 0xF0 ≤ b) (h2 : b ≤ 0xF4) :
    utf8Lead b = (⟨b % 8, 0, 3, if b = 0xF0 then 0x90 else 0x80,
      if b = 0xF4 then 0x8F else 0xBF⟩, []) := by
  unfold utf8Lead
  rw [if_neg (by omega), if_neg (by omega), if_neg (by omega), if_pos ⟨h1, h2⟩]

theorem utf8Step_last (cpv seen needed lo hi b : Nat) (hn : needed ≠ 0) (hlo : lo ≤ b)
    (hhi : b ≤ hi) (hs : seen + 1 = needed) :
    utf8Step ⟨cpv, seen, needed, lo, hi⟩ b = (Utf8State.init, [cpv * 64 + b % 64]) := by
  unfold utf8Step
  simp only
  rw [if_neg hn, if_neg (by omega), if_pos hs]

theorem utf8Step_more (cpv seen needed lo hi b : Nat) (hn : needed ≠ 0) (hlo : lo ≤ b)
    (hhi : b ≤ hi) (hs : seen + 1 ≠ needed) :
    utf8Step ⟨cpv, seen, needed, lo, hi⟩ b
      = (⟨cpv * 64 + b % 64, seen + 1, needed, 0x80, 0xBF⟩, []) := by
  unfold utf8Step
  simp only
  rw [if_neg hn, if_neg (by omega), if_neg hs]

theorem utf8Decode_encodeScalar (cp : Nat) (h : IsScalar cp) (rest : Bytes) :
    utf8DecodeFrom Utf8State.init (utf8EncodeScalar cp ++ rest)
      = cp :: utf8DecodeFrom Utf8State.init rest := by
  obtain ⟨h1, h2⟩ := h
  unfold utf8EncodeScalar
  split_ifs with c1 c2 c3
  · rw [List.singleton_append, utf8DecodeFrom_cons, utf8Step_init, utf8Lead_one cp (by omega)]
    rfl
  · simp only [List.cons_append, List.nil_append]
    rw [utf8DecodeFrom_cons, utf8Step_init, utf8Lead_two _ (by omega) (by omega)]
    simp only [List.nil_append]
    rw [utf8DecodeFrom_cons, utf8Step_last _ _ _ _ _ _ (by omega) (by omega) (by omega) (by omega)]
    simp only [List.singleton_append, List.cons.injEq, and_true]
    omega
  · simp only [List.cons_append, List.nil_append]
    rw [utf8DecodeFrom_cons, utf8Step_init, utf8Lead_three _ (by omega) (by omega)]
    simp only [List.nil_append]
    rw [utf8DecodeFrom_cons, utf8Step_more _ _ _ _ _ _ (by omega)
      (by split_ifs <;> omega) (by split_ifs <;> omega) (by omega)]
    simp only [List.nil_append]
    rw [utf8DecodeFrom_cons, utf8Step_last _ _ _ _ _ _ (by omega) (by omega) (by omega) (by omega)]
    simp only [List.singleton_append, List.cons.injEq, and_true]
    omega
  · simp only [List.cons_append, List.nil_append]
    rw [utf8DecodeFrom_cons, utf8Step_init, utf8Lead_four _ (by omega) (by omega)]
    simp only [List.nil_append]
    rw [utf8DecodeFrom_cons, utf8Step_more _ _ _ _ _ _ (by omega)
      (by split_ifs <;> omega) (by split_ifs <;> omega) (by omega)]
    simp only [List.nil_append]
    rw [utf8DecodeFrom_cons, utf8Step_more _ _ _ _ _ _ (by omega) (by omega) (by omega) (by omega)]
    simp only [List.nil_append]
    rw [utf8DecodeFrom_cons, utf8Step_last _ _ _ _ _ _ (by omega) (by omega) (by omega) (by omega)]
    simp only [List.singleton_append, List.cons.injEq, and_true]
    omega

theorem utf8Decode_encode (cps : List Nat) (h : ∀ cp ∈ cps, IsScalar cp) :
    utf8DecodeFrom Utf8State.init (cps.flatMap utf8EncodeScalar) = cps := by
  induction cps with
  | nil => rfl
  | cons cp rest ih =>
    rw [List.flatMap_cons, utf8Decode_encodeScalar cp (h cp (by simp)),
      ih (fun x hx => h x (by simp [hx]))]

theorem toScalars_wellFormed (s : JSString) (h : wellFormed s = true) :
    (∀ cp ∈ toScalars s, IsScalar cp) ∧ (toScalars s).flatMap utf16Units = s := by
  induction s using toScalars.induct with
  | case1 => simp [toScalars]
  | case2 u hu =>
    simp [wellFormed, hu] at h
  | case3 u hu =>
    simp only [wellFormed, Bool.and_eq_true, decide_eq_true_eq, Bool.not_eq_true'] at h
    simp only [toScalars, hu]
    simp only [Bool.or_eq_true, isHighSurrogate, isLowSurrogate, Bool.and_eq_true,
      decide_eq_true_eq] at hu
    constructor
    · intro cp hcp
      have hcp2 : cp = u := by simpa using hcp
      unfold IsScalar
      omega
    · simp [utf16Units, h.1]
  | case4 u v rest hp ih =>
    have hp2 := hp
    simp only [isHighSurrogate, isLowSurrogate, Bool.and_eq_true, decide_eq_true_eq] at hp2
    simp only [Bool.and_eq_true] at hp
    simp only [wellFormed, hp.1, hp.2, if_true, Bool.true_and] at h
    obtain ⟨ih1, ih2⟩ := ih h
    simp only [toScalars, hp.1, hp.2, Bool.and_self, if_true]
    constructor
    · intro cp hcp
      rcases List.mem_cons.mp hcp with hcp | hcp
      · unfold IsScalar
        omega
      · exact ih1 cp hcp
    · rw [List.flatMap_cons, ih2]
      unfold utf16Units
      rw [if_neg (by omega)]
      simp only [List.cons_append, List.nil_append, List.cons.injEq, and_true]
      omega
  | case5 u v rest hp hs ih =>
    exfalso
    simp only [wellFormed] at h
    simp only [Bool.and_eq_true, not_and, Bool.not_eq_true] at hp
    simp only [Bool.or_eq_true] at hs
    split_ifs at h with hh
    · simp [hp hh] at h
    · rcases hs with hs | hs
      · exact hh hs
      · simp [hs] at h
  | case6 u v rest hp hs ih =>
    simp only [Bool.or_eq_true, not_or, Bool.not_eq_true] at hs
    simp only [wellFormed, hs.1, Bool.false_eq_true, if_false, hs.2, Bool.not_false,
      Bool.and_true, Bool.and_eq_true, decide_eq_true_eq] at h
    obtain ⟨ih1, ih2⟩ := ih h.2
    have hs2 := hs
    simp only [isHighSurrogate, isLowSurrogate, Bool.and_eq_false_iff, decide_eq_false_iff_not]
      at hs2
    simp only [toScalars, hs.1, hs.2, Bool.false_and, Bool.or_self, Bool.false_eq_true, if_false]
    constructor
    · intro cp hcp
      rcases List.mem_cons.mp hcp with hcp | hcp
      · unfold IsScalar
        omega
      · exact ih1 cp hcp
    · rw [List.flatMap_cons, ih2]
      simp [utf16Units, h.1]

theorem toScalars_head_ne_bom (s : JSString) (h : s.head? ≠ some 0xFEFF) :
    stripBOM (toScalars s) = toScalars s := by
  have key : ∀ l : List Nat, l.head? ≠ some 0xFEFF → stripBOM l = l := by
    intro l hl
    unfold stripBOM
    split
    · simp at hl
    · rfl
  apply key
  match s, h with
  | [], _ => simp [toScalars]
  | [u], h =>
    simp only [toScalars]
    split_ifs
    · simp
    · simpa using h
  | u :: v :: rest, h =>
    simp only [toScalars]
    split_ifs with c1 c2
    · simp only [List.head?_cons, ne_eq, Option.some.injEq]
      simp only [isHighSurrogate, Bool.and_eq_true, decide_eq_true_eq] at c1
      omega
    · simp
    · simpa using h

/-- On a well-formed string that does not start with U+FEFF, decoding the
UTF-8 encoding gives the string back. -/
theorem bufferToString_stringToBuffer (s : JSString) (hwf : wellFormed s = true)
    (hbom : s.head? ≠ some 0xFEFF) : bufferToString (stringToBuffer s) = s := by
  obtain ⟨h1, h2⟩ := toScalars_wellFormed s hwf
  unfold bufferToString stringToBuffer
  rw [utf8Decode_encode _ h1, toScalars_head_ne_bom s hbom, h2]

theorem utf8EncodeScalar_bytes (cp : Nat) (h : cp < 0x110000) : IsBytes (utf8EncodeScalar cp) := by
  unfold utf8EncodeScalar IsBytes
  split_ifs <;> simp <;> omega

theorem toScalars_lt (s : JSString) (h : IsString s) : ∀ cp ∈ toScalars s, cp < 0x110000 := by
  induction s using toScalars.induct with
  | case1 => simp [toScalars]
  | case2 u hu => simp [toScalars, hu]
  | case3 u hu =>
    have := h u (by simp)
    simp only [toScalars, hu]
    simp
    omega
  | case4 u v rest hp ih =>
    have hp2 := hp
    simp only [isHighSurrogate, isLowSurrogate, Bool.and_eq_true, decide_eq_true_eq] at hp2
    simp only [toScalars, hp, if_true]
    intro cp hcp
    rcases List.mem_cons.mp hcp with hcp | hcp
    · omega
    · exact ih (fun w hw => h w (by simp [hw])) cp hcp
  | case5 u v rest hp hs ih =>
    simp only [toScalars, hp, hs, if_true]
    intro cp hcp
    rcases List.mem_cons.mp hcp with hcp | hcp
    · omega
    · exact ih (fun w hw => h w (by simp [hw])) cp hcp
  | case6 u v rest hp hs ih =>
    have := h u (by simp)
    simp only [toScalars, hp, hs]
    intro cp hcp
    rcases List.mem_cons.mp hcp with hcp | hcp
    · omega
    · exact ih (fun w hw => h w (by simp [hw])) cp hcp

theorem stringToBuffer_bytes (s : JSString) (h : IsString s) : IsBytes (stringToBuffer s) := by
  intro b hb
  unfold stringToBuffer at hb
  rw [List.mem_flatMap] at hb
  obtain ⟨cp, hcp, hb⟩ := hb
  exact utf8EncodeScalar_bytes cp (toScalars_lt s h cp hcp) b hb

theorem derivedBits_length (c : Crypto) (hc : c.Sound) (P s : JSString) :
    (derivedBits c P s).length = 32 := hc.deriveBits_length _ _ _

theorem deriveKey_eq (c : Crypto) (hc : c.Sound) (P s : JSString) :
    deriveKey c P s = .ok ⟨⟨derivedBits c P s⟩, derivedBits c P s⟩ := by
  unfold deriveKey importAesKey
  simp only [derivedBits, hc.deriveBits_length, or_true, if_true]

theorem hashDomain_eq (c : Crypto) (hc : c.Sound) (d : JSString) (key : Bytes)
    (hk : key.length = 32) :
    hashDomain c d key = .ok (b64Encode (c.sign key (stringToBuffer d))) := by
  unfold hashDomain importHmacKey
  rw [if_neg (by omega)]
  exact encodeBuffer_eq _ (hc.sign_bytes _ _)

theorem domainTag_eq (c : Crypto) (hc : c.Sound) (d P s : JSString) :
    domainTag c d P s = .ok (b64Encode (c.sign (derivedBits c P s) (stringToBuffer d))) := by
  unfold domainTag
  rw [deriveKey_eq c hc]
  exact hashDomain_eq c hc d _ (derivedBits_length c hc P s)

theorem encryptData_eq (c : Crypto) (hc : c.Sound) (key : CryptoKey) (p : JSString) (iv : Bytes)
    (hiv : IsIv iv) :
    encryptData c key p iv
      = .ok ⟨b64Encode iv, b64Encode (c.encrypt key.raw iv (stringToBuffer p))⟩ := by
  unfold encryptData
  simp only [encodeBuffer_eq iv hiv.2, encodeBuffer_eq _ (hc.encrypt_bytes _ _ _)]

theorem decryptData_encrypted (c : Crypto) (hc : c.Sound) (key : CryptoKey) (p : JSString)
    (iv : Bytes) (hk : key.raw.length = 32) (hiv : IsIv iv) (hp : IsString p) :
    decryptData c key (b64Encode (c.encrypt key.raw iv (stringToBuffer p))) (b64Encode iv)
      = .ok (bufferToString (stringToBuffer p)) := by
  unfold decryptData
  simp only [decodeBuffer_b64Encode iv hiv.2, decodeBuffer_b64Encode _ (hc.encrypt_bytes _ _ _),
    hc.decrypt_encrypt _ _ _ hk hiv (stringToBuffer_bytes p hp)]

theorem b64Encode_length (b : List Nat) : (b64Encode b).length = 4 * ((b.length + 2) / 3) := by
  induction b using b64Encode.induct <;> simp_all [b64Encode]
  omega

theorem objectPrototypeNames_length : ∀ n ∈ objectPrototypeNames, n.length < 44 := by decide

theorem getProp_of_length (o : Store) (k : JSString) (hk : k.length = 44) :
    getProp o k = match ownLookup o.own k with
      | some e => .record e
      | none => .undefined := by
  have h1 : k ≠ str "__proto__" := by
    intro h; rw [h] at hk; revert hk; decide
  have h2 : k ≠ str "iv" := by
    intro h; rw [h] at hk; revert hk; decide
  have h3 : k ≠ str "encryptedData" := by
    intro h; rw [h] at hk; revert hk; decide
  have h4 : k ∉ objectPrototypeNames := by
    intro h
    have := objectPrototypeNames_length k h
    omega
  unfold getProp
  cases ownLookup o.own k with
  | some e => rfl
  | none =>
    simp only [if_neg h1, if_neg h2, if_neg h3, if_neg h4]
    cases o.proto <;> rfl

theorem setProp_of_length (o : Store) (k : JSString) (v : Entry) (hk : k.length = 44) :
    setProp o k v = { o with own := upsert o.own k v } := by
  have h1 : k ≠ str "__proto__" := by
    intro h; rw [h] at hk; revert hk; decide
  unfold setProp
  cases ownLookup o.own k with
  | some e => rfl
  | none => simp only [if_neg h1]

theorem ownLookup_upsert_self {β : Type} (l : List (JSString × β)) (k : JSString) (v : β) :
    ownLookup (upsert l k v) k = some v := by
  induction l with
  | nil => simp [upsert, ownLookup]
  | cons kv rest ih =>
    obtain ⟨k', v'⟩ := kv
    unfold upsert
    split_ifs with h
    · simp [ownLookup]
    · simp [ownLookup, h, ih]

theorem ownLookup_upsert_other {β : Type} (l : List (JSString × β)) (k k' : JSString) (v : β)
    (h : k' ≠ k) : ownLookup (upsert l k v) k' = ownLookup l k' := by
  induction l with
  | nil => simp [upsert, ownLookup, Ne.symm h]
  | cons kv rest ih =>
    obtain ⟨k1, v1⟩ := kv
    unfold upsert
    split_ifs with h1
    · subst h1
      simp [ownLookup, Ne.symm h]
    · simp only [ownLookup, ih]

theorem tagText_length (c : Crypto) (hc : c.Sound) (d P s : JSString) :
    (tagText c d P s).length = 44 := by
  unfold tagText
  rw [b64Encode_length, hc.sign_length]

theorem domainTag_eq_tagText (c : Crypto) (hc : c.Sound) (d P s : JSString) :
    domainTag c d P s = .ok (tagText c d P s) := domainTag_eq c hc d P s

theorem storePassword_eq (c : Crypto) (hc : c.Sound) (d p P s : JSString) (iv : Bytes)
    (hiv : IsIv iv) (st : Store) :
    storePassword c d p P s iv st
      = .ok { st with own := upsert st.own (tagText c d P s) (entryOf c p P s iv) } := by
  unfold storePassword
  simp only [deriveKey_eq c hc, encryptData_eq c hc _ p iv hiv,
    hashDomain_eq c hc d (derivedBits c P s) (derivedBits_length c hc P s)]
  rw [← tagText, setProp_of_length _ _ _ (tagText_length c hc d P s)]
  rfl

theorem retrievePassword_eq (c : Crypto) (hc : c.Sound) (d P s : JSString) (st : Store) :
    retrievePassword c d P s st
      = match ownLookup st.own (tagText c d P s) with
        | none => .ok none
        | some e => (decryptData c ⟨derivedBits c P s⟩ e.encryptedData e.iv).map some := by
  unfold retrievePassword
  simp only [deriveKey_eq c hc,
    hashDomain_eq c hc d (derivedBits c P s) (derivedBits_length c hc P s)]
  rw [← tagText, getProp_of_length _ _ (tagText_length c hc d P s)]
  cases ownLookup st.own (tagText c d P s) <;> rfl

theorem decryptData_entryOf (c : Crypto) (hc : c.Sound) (p P s : JSString) (iv : Bytes)
    (hiv : IsIv iv) (hp : IsString p) :
    decryptData c ⟨derivedBits c P s⟩ (entryOf c p P s iv).encryptedData (entryOf c p P s iv).iv
      = .ok (bufferToString (stringToBuffer p)) :=
  decryptData_encrypted c hc ⟨derivedBits c P s⟩ p iv (derivedBits_length c hc P s) hiv hp

theorem padTo_length (n : Nat) (l : Bytes) : (padTo n l).length = n := by
  simp [padTo]

theorem padTo_bytes (n : Nat) (l : Bytes) : IsBytes (padTo n l) := by
  intro x hx
  unfold padTo at hx
  have hx2 := List.mem_of_mem_take hx
  rw [List.mem_append] at hx2
  rcases hx2 with h | h
  · rw [List.mem_map] at h
    obtain ⟨y, _, rfl⟩ := h
    omega
  · rw [List.mem_replicate] at h
    omega

theorem zipAdd_bytes (a b : Bytes) :
    IsBytes (List.zipWith (fun x y => (x + y) % 256) a b) := by
  intro x hx
  rw [List.mem_iff_getElem] at hx
  obtain ⟨i, hi, rfl⟩ := hx
  rw [List.getElem_zipWith]
  omega

theorem demoCrypto_sound : demoCrypto.Sound where
  deriveBits_length := by
    intro pw salt iter
    simp [demoCrypto, padTo_length]
  sign_length := by
    intro key msg
    simp [demoCrypto, padTo_length]
  sign_bytes := by
    intro key msg
    exact zipAdd_bytes _ _
  encrypt_bytes := by
    intro key iv pt x hx
    simp only [demoCrypto, List.mem_append, List.mem_map] at hx
    rcases hx with ⟨y, _, rfl⟩ | h
    · omega
    · exact zipAdd_bytes _ _ x h
  decrypt_encrypt := by
    intro key iv pt _ _ hpt
    have hlen : (demoTag key iv).length = 16 := by simp [demoTag, padTo_length]
    simp only [demoCrypto, List.length_append, List.length_map, hlen, Nat.add_sub_cancel]
    rw [if_pos]
    · simp only [List.take_left', List.length_map, List.map_map, Option.some.injEq]
      conv_rhs => rw [← List.map_id pt]
      apply List.map_congr_left
      intro x hx
      have := hpt x hx
      simp only [Function.comp, id]
      omega
    · constructor
      · omega
      · rw [List.drop_left']
        simp

/-! ## Storing then retrieving: lemmas -/

/-- Storing then retrieving under the same passphrase and salt: the result
is the decoding of the encoding of the password. -/
theorem storePassword_retrievePassword (c : Crypto) (hc : c.Sound) (d p P s : JSString) (iv : Bytes)
    (st : Store) (hiv : IsIv iv) (hp : IsString p) :
    ∃ st', storePassword c d p P s iv st = .ok st' ∧
      retrievePassword c d P s st' = .ok (some (bufferToString (stringToBuffer p))) := by
  refine ⟨_, storePassword_eq c hc d p P s iv hiv st, ?_⟩
  rw [retrievePassword_eq c hc]
  simp only [ownLookup_upsert_self, decryptData_entryOf c hc p P s iv hiv hp]
  rfl

/-- Retrieving under a tag that is not a key of the store gives `null`. -/
theorem retrieve_absent (c : Crypto) (hc : c.Sound) (d P s : JSString) (st : Store)
    (h : ownLookup st.own (tagText c d P s) = none) :
    retrievePassword c d P s st = .ok none := by
  rw [retrievePassword_eq c hc, h]

theorem retrievePassword_congr (c : Crypto) (d P P' s : JSString) (st : Store)
    (h : stringToBuffer P = stringToBuffer P') :
    retrievePassword c d P s st = retrievePassword c d P' s st := by
  unfold retrievePassword deriveKey
  rw [h]

/-! ## Sequences of `storePassword` calls: lemmas -/

theorem upsert_mem {β : Type} (l : List (JSString × β)) (k : JSString) (v : β)
    (kv : JSString × β) (h : kv ∈ upsert l k v) : kv ∈ l ∨ kv = (k, v) := by
  induction l with
  | nil =>
    simp only [upsert, List.mem_singleton] at h
    exact Or.inr h
  | cons kv' rest ih =>
    obtain ⟨k', v'⟩ := kv'
    unfold upsert at h
    split_ifs at h with e
    · rcases List.mem_cons.mp h with h | h
      · exact Or.inr h
      · exact Or.inl (List.mem_cons_of_mem _ h)
    · rcases List.mem_cons.mp h with h | h
      · exact Or.inl (by rw [h]; exact List.mem_cons_self _ _)
      · rcases ih h with h | h
        · exact Or.inl (List.mem_cons_of_mem _ h)
        · exact Or.inr h

theorem ownLookup_foldl_upsert {α β : Type} (f : α → JSString) (g : α → β) (xs : List α)
    (own : List (JSString × β)) (k : JSString) :
    ownLookup (xs.foldl (fun acc x => upsert acc (f x) (g x)) own) k
      = match (xs.filter (fun x => decide (f x = k))).getLast? with
        | some x => some (g x)
        | none => ownLookup own k := by
  induction xs using List.reverseRecOn with
  | nil => simp
  | append_singleton xs x ih =>
    rw [List.foldl_append, List.filter_append]
    by_cases h : f x = k
    · subst h
      simp [ownLookup_upsert_self, List.filter_cons]
    · simp only [List.foldl_cons, List.foldl_nil]
      rw [ownLookup_upsert_other _ _ _ _ (Ne.symm h), ih]
      simp [List.filter_cons, h]

theorem mem_foldl_upsert {α β : Type} (f : α → JSString) (g : α → β) (xs : List α)
    (own : List (JSString × β)) (kv : JSString × β)
    (h : kv ∈ xs.foldl (fun acc x => upsert acc (f x) (g x)) own) :
    kv ∈ own ∨ ∃ x ∈ xs, kv = (f x, g x) := by
  induction xs using List.reverseRecOn with
  | nil => exact Or.inl h
  | append_singleton xs x ih =>
    rw [List.foldl_append] at h
    simp only [List.foldl_cons, List.foldl_nil] at h
    rcases upsert_mem _ _ _ _ h with h | h
    · rcases ih h with h | ⟨y, hy, h⟩
      · exact Or.inl h
      · exact Or.inr ⟨y, by simp [hy], h⟩
    · exact Or.inr ⟨x, by simp, h⟩

theorem takeList_encList (l rest : List Nat) : takeList (encList l ++ rest) = some (l, rest) := by
  simp [takeList, encList]

theorem parseKvs_flatMap (kvs : List (JSString × KeychainEntry)) :
    ∀ fuel, kvs.length ≤ fuel → parseKvs fuel (kvs.flatMap encKv) = some kvs := by
  induction kvs with
  | nil =>
    intro fuel _
    cases fuel <;> rfl
  | cons kv rest ih =>
    intro fuel hfuel
    cases fuel with
    | zero => simp at hfuel
    | succ fuel =>
      have e : (kv :: rest).flatMap encKv
          = kv.1.length :: (kv.1 ++ (encList kv.2.nonce ++ (encList kv.2.ciphertext
              ++ rest.flatMap encKv))) := by
        simp [List.flatMap_cons, encKv, encList]
      have e2 : kv.1.length :: (kv.1 ++ (encList kv.2.nonce ++ (encList kv.2.ciphertext
              ++ rest.flatMap encKv)))
          = encList kv.1 ++ (encList kv.2.nonce ++ (encList kv.2.ciphertext
              ++ rest.flatMap encKv)) := rfl
      rw [e]
      unfold parseKvs
      rw [e2, takeList_encList]
      simp only [takeList_encList]
      rw [ih fuel (by simpa using hfuel)]

theorem length_le_flatMap_encKv (kvs : List (JSString × KeychainEntry)) :
    kvs.length ≤ (kvs.flatMap encKv).length := by
  induction kvs with
  | nil => simp
  | cons kv rest ih =>
    simp only [List.flatMap_cons, List.length_append, List.length_cons, encKv, encList]
    omega

theorem demoPrimitives_lawful : demoPrimitives.Lawful where
  decrypt_encrypt := by
    intro key tag nonce pt
    have h : (padTo 4 key ++ [tag.length % 256]).length = 5 := by simp [padTo_length]
    simp only [demoPrimitives]
    rw [if_pos]
    · rw [← h, List.drop_left]
    · rw [← h, List.take_left]
  parse_serialize := by
    intro d
    simp only [demoPrimitives, takeList_encList]
    rw [parseKvs_flatMap d.kvs _ (length_le_flatMap_encKv d.kvs)]

theorem setAll_eq (pr : KeychainPrimitives) (ck ik salt : Bytes)
    (sets : List (JSString × JSString × Bytes)) (kvs : List (JSString × KeychainEntry)) :
    Keychain.setAll pr ⟨ck, ik, salt, kvs⟩ sets = ⟨ck, ik, salt, kvsAfter pr ck ik sets kvs⟩ := by
  induction sets generalizing kvs with
  | nil => rfl
  | cons x rest ih =>
    unfold Keychain.setAll kvsAfter
    simp only [List.foldl_cons, Keychain.set]
    exact ih _

theorem kvsAfter_decrypts (pr : KeychainPrimitives) (hpr : pr.Lawful) (ck ik : Bytes)
    (sets : List (JSString × JSString × Bytes)) :
    (kvsAfter pr ck ik sets []).all
      (fun kv => (pr.decrypt ck kv.1 kv.2.nonce kv.2.ciphertext).isSome) = true := by
  rw [List.all_eq_true]
  intro kv hkv
  unfold kvsAfter at hkv
  rcases mem_foldl_upsert _ _ sets [] kv hkv with h | ⟨x, _, h⟩
  · cases h
  · rw [h]
    simp only [hpr.decrypt_encrypt, Option.isSome_some]

theorem load_dump (pr : KeychainPrimitives) (hpr : pr.Lawful) (P : JSString) (salt : Bytes)
    (sets : List (JSString × JSString × Bytes)) :
    Keychain.load pr P
        (Keychain.dump pr (Keychain.setAll pr (Keychain.create pr P salt) sets)).1
        (Keychain.dump pr (Keychain.setAll pr (Keychain.create pr P salt) sets)).2
      = .ok ⟨(pr.deriveKeys P salt).1, (pr.deriveKeys P salt).2, salt,
          kvsAfter pr (pr.deriveKeys P salt).1 (pr.deriveKeys P salt).2 sets []⟩ := by
  unfold Keychain.create
  rw [setAll_eq]
  unfold Keychain.load Keychain.dump
  simp only [ne_eq, not_true_eq_false, if_false, hpr.parse_serialize,
    kvsAfter_decrypts pr hpr, if_true]

theorem get_kvsAfter (pr : KeychainPrimitives) (hpr : pr.Lawful) (ck ik salt : Bytes)
    (sets : List (JSString × JSString × Bytes))
    (hinj : ∀ a ∈ sets, ∀ b ∈ sets, pr.indexTag ik a.1 = pr.indexTag ik b.1 → a.1 = b.1)
    (d p : JSString) (hlast : lastSet sets d = some p) :
    Keychain.get pr ⟨ck, ik, salt, kvsAfter pr ck ik sets []⟩ d = .ok (some p) := by
  unfold lastSet at hlast
  obtain ⟨x0, h0, hpw⟩ := Option.map_eq_some'.mp hlast
  have hmem0 := List.mem_of_getLast?_eq_some h0
  rw [List.mem_filter] at hmem0
  obtain ⟨hx0, hd0⟩ := hmem0
  have hd0' : x0.1 = d := by simpa using hd0
  have hfilter : sets.filter (fun x => decide (pr.indexTag ik x.1 = pr.indexTag ik d))
      = sets.filter (fun x => decide (x.1 = d)) := by
    apply List.filter_congr
    intro x hx
    apply decide_eq_decide.mpr
    constructor
    · intro e
      rw [← hd0']
      apply hinj x hx x0 hx0
      rw [hd0', e]
    · intro e
      rw [e]
  unfold Keychain.get kvsAfter
  simp only
  rw [ownLookup_foldl_upsert (fun x : JSString × JSString × Bytes => pr.indexTag ik x.1), hfilter,
    h0]
  simp only [hd0', hpr.decrypt_encrypt, hpw]

/-- C3 (as stated, refuted): on the script's passphrase and salt the raw
bytes of the index key are the raw bytes of the cipher key, on the stand-in
primitives and on every provider. -/
theorem C3_counterexample_same_bytes :
    (∃ keys, deriveKey demoCrypto masterPassword0 salt0 = .ok keys ∧
      keys.hmacKey = keys.aesKey.raw) ∧
    ∀ (c : Crypto) (keys : DerivedKeys),
      deriveKey c masterPassword0 salt0 = .ok keys → keys.hmacKey = keys.aesKey.raw := by
  constructor
  · exact ⟨_, deriveKey_eq demoCrypto demoCrypto_sound _ _, rfl⟩
  · intro c keys h
    unfold deriveKey importAesKey at h
    simp only at h
    split_ifs at h
    simp only [Except.ok.injEq] at h
    rw [← h]

/-- C3 (amended): for every passphrase and salt, `deriveKey` returns a cipher
key and an index key made of the same 256 derived bits: the raw bytes of
`hmacKey` are the raw bytes of `aesKey`, so knowing one gives the other. -/
theorem C3_keys_share_bytes (c : Crypto) (hc : c.Sound) (P s : JSString) :
    ∃ keys, deriveKey c P s = .ok keys ∧ keys.hmacKey = keys.aesKey.raw ∧
      keys.hmacKey.length = 32 :=
  ⟨_, deriveKey_eq c hc P s, rfl, derivedBits_length c hc P s⟩

/-- C3, the amended statement on the script's passphrase and salt. -/
theorem C3_keys_share_bytes_witness :
    demoCrypto.Sound ∧
    ∃ keys, deriveKey demoCrypto masterPassword0 salt0 = .ok keys ∧
      keys.hmacKey = keys.aesKey.raw ∧ keys.hmacKey.length = 32 :=
  ⟨demoCrypto_sound, C3_keys_share_bytes demoCrypto demoCrypto_sound masterPassword0 salt0⟩

/-- C5 (as stated, refuted): the passphrases U+D800 (an unpaired surrogate) and U+FFFD are
different, an entry is stored for the domain under the second only, and
`retrievePassword` under the first returns that entry's password, not
`null`: on the stand-in primitives and on every sound provider. -/
theorem C5_counterexample_aliased_passphrase :
    ([0xD800] : JSString) ≠ [0xFFFD] ∧
    retrievePassword demoCrypto domain0 [0xD800] salt0 Store.empty = .ok none ∧
    (storePassword demoCrypto domain0 password0 [0xFFFD] salt0 iv0 Store.empty).bind
      (retrievePassword demoCrypto domain0 [0xD800] salt0) = .ok (some password0) ∧
    ∀ (c : Crypto), c.Sound → ∀ (st : Store) (iv : Bytes), IsIv iv →
      ∃ st', storePassword c domain0 password0 [0xFFFD] salt0 iv st = .ok st' ∧
        retrievePassword c domain0 [0xD800] salt0 st' = .ok (some password0) := by
  refine ⟨by decide, by decide, by decide, ?_⟩
  intro c hc st iv hiv
  obtain ⟨st', h1, h2⟩ := storePassword_retrievePassword c hc domain0 password0 [0xFFFD] salt0 iv st hiv
    (by decide)
  refine ⟨st', h1, ?_⟩
  rw [retrievePassword_congr c domain0 [0xD800] [0xFFFD] salt0 st' (by decide), h2]
  have e : bufferToString (stringToBuffer password0) = password0 := by decide
  rw [e]

/-- C5 (amended): for every domain `d`, passphrase `P` and salt `s` such that
the store has no own entry under the tag `hashDomain` gives `d` for `(P, s)`
(in particular on the empty store), `retrievePassword(d, P, s)` returns
`null` and does not throw; the tag is not the name of a property the plain
object inherits, the read of the store gives `undefined`, and on no store
does the read under this tag give an inherited property. -/
theorem C5_absent_gives_null (c : Crypto) (hc : c.Sound) (d P s : JSString) (st : Store)
    (h : ∀ t, domainTag c d P s = .ok t → ownLookup st.own t = none) :
    retrievePassword c d P s st = .ok none ∧
    ∃ t, domainTag c d P s = .ok t ∧ t ∉ objectPrototypeNames ∧ t ≠ str "__proto__" ∧
      getProp st t = .undefined ∧ ∀ (st' : Store) (b : Bool), getProp st' t ≠ .other b := by
  have ht := domainTag_eq_tagText c hc d P s
  have hlen := tagText_length c hc d P s
  refine ⟨retrieve_absent c hc d P s st (h _ ht), tagText c d P s, ht, ?_, ?_, ?_, ?_⟩
  · intro hmem
    have := objectPrototypeNames_length _ hmem
    omega
  · intro e
    rw [e] at hlen
    revert hlen
    decide
  · rw [getProp_of_length st _ hlen, h _ ht]
  · intro st' b
    rw [getProp_of_length st' _ hlen]
    cases ownLookup st'.own (tagText c d P s) <;> simp

/-- C5, the amended statement on the store of the script and another domain. -/
theorem C5_absent_gives_null_witness :
    demoCrypto.Sound ∧
    (∀ t, domainTag demoCrypto (str "other.example") masterPassword0 salt0 = .ok t →
      ownLookup storeAfterScript.own t = none) ∧
    storeAfterScript.own.length = 1 ∧
    retrievePassword demoCrypto (str "other.example") masterPassword0 salt0 storeAfterScript
      = .ok none :=
  have h : ∀ t, domainTag demoCrypto (str "other.example") masterPassword0 salt0 = .ok t →
      ownLookup storeAfterScript.own t = none := by
    intro t ht
    rw [domainTag_eq_tagText demoCrypto demoCrypto_sound] at ht
    cases ht
    decide
  ⟨demoCrypto_sound, h, by decide,
    (C5_absent_gives_null demoCrypto demoCrypto_sound (str "other.example") masterPassword0 salt0
      storeAfterScript h).1⟩

/-- C8 (on the keychain engine as the specification describes it): for every
passphrase and every store on which a sequence of domain/password pairs was
set, the domains being filed under different tags, `dump()` returns
`[contents, checksum]` such that `load(P, contents, checksum)` succeeds and
yields a store whose `get` returns, for each of the domains, the password
set for it (the last one when a domain was set more than once). -/
theorem C8_dump_load_round_trip (pr : KeychainPrimitives) (hpr : pr.Lawful) (P : JSString)
    (salt : Bytes) (sets : List (JSString × JSString × Bytes))
    (hinj : ∀ a ∈ sets, ∀ b ∈ sets,
      pr.indexTag (pr.deriveKeys P salt).2 a.1 = pr.indexTag (pr.deriveKeys P salt).2 b.1 →
        a.1 = b.1) :
    ∃ restored,
      Keychain.load pr P
          (Keychain.dump pr (Keychain.setAll pr (Keychain.create pr P salt) sets)).1
          (Keychain.dump pr (Keychain.setAll pr (Keychain.create pr P salt) sets)).2
        = .ok restored ∧
      ∀ d p, lastSet sets d = some p → Keychain.get pr restored d = .ok (some p) :=
  ⟨_, load_dump pr hpr P salt sets,
    fun d p hlast => get_kvsAfter pr hpr _ _ salt sets hinj d p hlast⟩

/-- C8 on the three entries of the test `can dump and restore the database`
and its passphrase. -/
theorem C8_dump_load_round_trip_witness :
    demoPrimitives.Lawful ∧
    (∀ a ∈ setsOfTest, ∀ b ∈ setsOfTest,
      demoPrimitives.indexTag (demoPrimitives.deriveKeys (str "password123!") iv1).2 a.1
        = demoPrimitives.indexTag (demoPrimitives.deriveKeys (str "password123!") iv1).2 b.1 →
        a.1 = b.1) ∧
    ∃ restored,
      Keychain.load demoPrimitives (str "password123!")
          (Keychain.dump demoPrimitives
            (Keychain.setAll demoPrimitives
              (Keychain.create demoPrimitives (str "password123!") iv1) setsOfTest)).1
          (Keychain.dump demoPrimitives
            (Keychain.setAll demoPrimitives
              (Keychain.create demoPrimitives (str "password123!") iv1) setsOfTest)).2
        = .ok restored ∧
      Keychain.get demoPrimitives restored (str "service1") = .ok (some (str "value1")) ∧
      Keychain.get demoPrimitives restored (str "service2") = .ok (some (str "value2")) ∧
      Keychain.get demoPrimitives restored (str "service3") = .ok (some (str "value3")) := by
  have hinj : ∀ a ∈ setsOfTest, ∀ b ∈ setsOfTest,
      demoPrimitives.indexTag (demoPrimitives.deriveKeys (str "password123!") iv1).2 a.1
        = demoPrimitives.indexTag (demoPrimitives.deriveKeys (str "password123!") iv1).2 b.1 →
        a.1 = b.1 := by decide
  obtain ⟨restored, h1, h2⟩ := C8_dump_load_round_trip demoPrimitives demoPrimitives_lawful
    (str "password123!") iv1 setsOfTest hinj
  exact ⟨demoPrimitives_lawful, hinj, restored, h1, h2 _ _ (by decide), h2 _ _ (by decide),
    h2 _ _ (by decide)⟩

/-- C10 (as stated, refuted): a leading U+FEFF is dropped, and an unpaired
surrogate comes back as U+FFFD. -/
theorem C10_counterexample_bom_and_surrogate :
    bufferToString (stringToBuffer [0xFEFF, 0x61]) = [0x61] ∧
    bufferToString (stringToBuffer [0x61, 0xD800]) = [0x61, 0xFFFD] := by
  constructor <;> decide

/-- C10 (amended): for every well-formed string `s` (no unpaired surrogate)
that does not start with U+FEFF, `bufferToString(stringToBuffer(s))` equals `s`. -/
theorem C10_text_round_trip (s : JSString) (hwf : wellFormed s = true)
    (hbom : s.head? ≠ some 0xFEFF) : bufferToString (stringToBuffer s) = s :=
  bufferToString_stringToBuffer s hwf hbom

/-- C10, the amended statement on a text with characters of one to four
UTF-8 bytes and a U+FEFF that is not in first place. -/
theorem C10_text_round_trip_witness :
    wellFormed [0x61, 0xE9, 0x20AC, 0xFEFF, 0xD83D, 0xDE00] = true ∧
    [0x61, 0xE9, 0x20AC, 0xFEFF, 0xD83D, 0xDE00].head? ≠ some 0xFEFF ∧
    bufferToString (stringToBuffer [0x61, 0xE9, 0x20AC, 0xFEFF, 0xD83D, 0xDE00])
      = [0x61, 0xE9, 0x20AC, 0xFEFF, 0xD83D, 0xDE00] :=
  ⟨by decide, by decide,
    C10_text_round_trip [0x61, 0xE9, 0x20AC, 0xFEFF, 0xD83D, 0xDE00] (by decide) (by decide)⟩

end Crypto1
